import Mathlib

/-!
Verification development for the `periodiq` cron scheduler (`src/periodiq.py`).

The core of the library is the class `CronSpec`: parsing a cron expression
into five ordered value sets, validating a timestamp against them, and
computing the next valid timestamp.  This file gives a shallow embedding of
that code and proves / refutes the specification's claims about it.

Modelling conventions:
* Python `datetime`/`pendulum` timestamps are modelled by the `DateTime`
  structure below, with proleptic-Gregorian civil-calendar arithmetic
  (leap years, variable month lengths).  Timezones and DST are not part of
  the model: all additions are plain civil-calendar additions, which is
  what `pendulum.add` performs for the dates used here.
* Fallible Python code (KeyError / IndexError / ValueError, which the spec
  groups under ParseError and SearchError) is modelled with `Option`:
  `none` is an exception escaping the function.
* Python `int` values are modelled as `Int`; `str` values as `List Char`
  (so that everything reduces by `decide` in the kernel).
-/

set_option maxRecDepth 20000

namespace Periodiq

/-! ## Calendar model (Python `calendar.monthrange`, `datetime`) -/

/-- Gregorian leap-year rule, as used by Python's `calendar` module. -/
def isLeap (y : Nat) : Bool :=
  y % 4 == 0 && (y % 100 != 0 || y % 400 == 0)

/-- Number of days of month `m` (1-12) of year `y`:
`calendar.monthrange(y, m)[1]`. -/
def monthLen (y m : Nat) : Nat :=
  if m = 2 then (if isLeap y then 29 else 28)
  else if m = 4 ∨ m = 6 ∨ m = 9 ∨ m = 11 then 30
  else 31

theorem monthLen_pos (y m : Nat) : 0 < monthLen y m := by
  unfold monthLen
  split
  · split <;> norm_num
  · split <;> norm_num

/-- A wall-clock timestamp at second resolution (microseconds are zeroed by
`next_valid_date` immediately and are never inspected by `validate`). -/
structure DateTime where
  year : Nat
  month : Nat
  day : Nat
  hour : Nat
  minute : Nat
  second : Nat
  deriving DecidableEq

/-- The date fields denote a real calendar day. -/
def DateTime.ValidDate (d : DateTime) : Prop :=
  1 ≤ d.month ∧ d.month ≤ 12 ∧ 1 ≤ d.day ∧ d.day ≤ monthLen d.year d.month

instance (d : DateTime) : Decidable d.ValidDate :=
  decidable_of_iff
    (1 ≤ d.month ∧ d.month ≤ 12 ∧ 1 ≤ d.day ∧ d.day ≤ monthLen d.year d.month)
    Iff.rfl

/-- The time fields denote a real wall-clock time. -/
def DateTime.ValidTime (d : DateTime) : Prop :=
  d.hour < 24 ∧ d.minute < 60 ∧ d.second < 60

instance (d : DateTime) : Decidable d.ValidTime :=
  decidable_of_iff (d.hour < 24 ∧ d.minute < 60 ∧ d.second < 60) Iff.rfl

/-- A real timestamp (what `pendulum` hands to the library). -/
def DateTime.Valid (d : DateTime) : Prop := d.ValidDate ∧ d.ValidTime

instance (d : DateTime) : Decidable d.Valid :=
  decidable_of_iff (d.ValidDate ∧ d.ValidTime) Iff.rfl

/-- The calendar day after `d` (the primitive under `pendulum.add(days=…)`). -/
def nextDay (d : DateTime) : DateTime :=
  if d.day < monthLen d.year d.month then { d with day := d.day + 1 }
  else if d.month < 12 then { d with month := d.month + 1, day := 1 }
  else { d with year := d.year + 1, month := 1, day := 1 }

/-- `pendulum.add(days=k)` for `k ≥ 0` (civil-calendar day addition). -/
def addDays : DateTime → Nat → DateTime
  | d, 0 => d
  | d, k + 1 => addDays (nextDay d) k

/-- `pendulum.add(hours=k)` for `k ≥ 0`. -/
def addHours (d : DateTime) (k : Nat) : DateTime :=
  addDays { d with hour := (d.hour + k) % 24 } ((d.hour + k) / 24)

/-- `pendulum.add(minutes=k)` for `k ≥ 0`. -/
def addMinutes (d : DateTime) (k : Nat) : DateTime :=
  addHours { d with minute := (d.minute + k) % 60 } ((d.minute + k) / 60)

/-- Days in year `y` strictly before month `m` (months `1 … m-1`). -/
def daysBeforeMonth (y : Nat) : Nat → Nat
  | 0 => 0
  | m + 1 => daysBeforeMonth y m + (if m = 0 then 0 else monthLen y m)

def daysInYear (y : Nat) : Nat := daysBeforeMonth y 13

/-- Leap years in `[0, y)` (year 0 of the proleptic Gregorian calendar is a
leap year). -/
def leapsBefore (y : Nat) : Nat :=
  (y + 3) / 4 - (y + 99) / 100 + (y + 399) / 400

/-- Days strictly before January 1st of year `y`, counting from year 0
(in closed form, so the kernel evaluates it in constant depth). -/
def daysBeforeYear (y : Nat) : Nat := 365 * y + leapsBefore y

/-- Absolute day index of a date (proleptic Gregorian, day 0 = 0000-01-01). -/
def absDay (d : DateTime) : Nat :=
  daysBeforeYear d.year + daysBeforeMonth d.year d.month + (d.day - 1)

/-- Absolute minute index of a timestamp. -/
def absMin (d : DateTime) : Nat := (absDay d * 24 + d.hour) * 60 + d.minute

/-- Absolute second index of a timestamp.  Comparing two valid timestamps
(as `pendulum` comparison does) is comparing their `absSec`. -/
def absSec (d : DateTime) : Nat := absMin d * 60 + d.second

/-- Python `date.isoweekday()`: Monday = 1 … Sunday = 7.
(0000-01-01 of the proleptic Gregorian calendar is a Saturday.) -/
def DateTime.isoweekday (d : DateTime) : Nat := (absDay d + 5) % 7 + 1

theorem daysBeforeMonth_succ (y m : Nat) (h : 1 ≤ m) :
    daysBeforeMonth y (m + 1) = daysBeforeMonth y m + monthLen y m := by
  have hm : ¬ m = 0 := by omega
  simp [daysBeforeMonth, hm]

theorem daysInYear_eq (y : Nat) :
    daysInYear y = if isLeap y then 366 else 365 := by
  cases hl : isLeap y <;>
    simp [daysInYear, daysBeforeMonth, monthLen, hl]

theorem isLeap_iff (y : Nat) :
    isLeap y = true ↔ (y % 4 = 0 ∧ (y % 100 ≠ 0 ∨ y % 400 = 0)) := by
  unfold isLeap
  simp [Nat.beq_eq_true_eq, ne_eq]

theorem daysBeforeYear_succ (y : Nat) :
    daysBeforeYear (y + 1) = daysBeforeYear y + daysInYear y := by
  rw [daysInYear_eq]
  unfold daysBeforeYear leapsBefore
  by_cases hl : isLeap y = true
  · have ha := (isLeap_iff y).mp hl
    rw [if_pos hl]
    omega
  · have ha : ¬ (y % 4 = 0 ∧ (y % 100 ≠ 0 ∨ y % 400 = 0)) :=
      fun hc => hl ((isLeap_iff y).mpr hc)
    rw [if_neg hl]
    omega

theorem nextDay_hour (d : DateTime) : (nextDay d).hour = d.hour := by
  unfold nextDay; split
  · rfl
  · split <;> rfl

theorem nextDay_minute (d : DateTime) : (nextDay d).minute = d.minute := by
  unfold nextDay; split
  · rfl
  · split <;> rfl

theorem nextDay_second (d : DateTime) : (nextDay d).second = d.second := by
  unfold nextDay; split
  · rfl
  · split <;> rfl

theorem validDate_nextDay {d : DateTime} (h : d.ValidDate) :
    (nextDay d).ValidDate := by
  obtain ⟨h1, h2, h3, h4⟩ := h
  unfold nextDay
  split
  · rename_i hlt
    exact ⟨h1, h2, Nat.succ_le_succ (Nat.zero_le _), hlt⟩
  · split
    · rename_i hm12
      exact ⟨Nat.succ_le_succ (Nat.zero_le _), hm12, le_refl 1, monthLen_pos _ _⟩
    · exact ⟨le_refl 1, by norm_num, le_refl 1, monthLen_pos _ _⟩

theorem absDay_nextDay {d : DateTime} (h : d.ValidDate) :
    absDay (nextDay d) = absDay d + 1 := by
  obtain ⟨h1, h2, h3, h4⟩ := h
  unfold nextDay
  split
  · simp only [absDay]
    omega
  · rename_i hlt
    have hday : d.day = monthLen d.year d.month := by omega
    split
    · rename_i hm12
      simp only [absDay]
      rw [daysBeforeMonth_succ d.year d.month h1]
      omega
    · rename_i hm12
      have hm : d.month = 12 := by omega
      simp only [absDay]
      rw [daysBeforeYear_succ]
      have h13 : daysBeforeMonth d.year 13 =
          daysBeforeMonth d.year 12 + monthLen d.year 12 :=
        daysBeforeMonth_succ d.year 12 (by norm_num)
      have h1' : daysBeforeMonth (d.year + 1) 1 = 0 := rfl
      rw [hm] at h4 hday ⊢
      simp only [daysInYear] at h13 ⊢
      omega

theorem validDate_addDays {d : DateTime} (h : d.ValidDate) (k : Nat) :
    (addDays d k).ValidDate := by
  induction k generalizing d with
  | zero => exact h
  | succ n ih => exact ih (validDate_nextDay h)

theorem absDay_addDays {d : DateTime} (h : d.ValidDate) (k : Nat) :
    absDay (addDays d k) = absDay d + k := by
  induction k generalizing d with
  | zero => rfl
  | succ n ih =>
    show absDay (addDays (nextDay d) n) = absDay d + (n + 1)
    rw [ih (validDate_nextDay h), absDay_nextDay h]
    omega

theorem addDays_hour (d : DateTime) (k : Nat) : (addDays d k).hour = d.hour := by
  induction k generalizing d with
  | zero => rfl
  | succ n ih =>
    show (addDays (nextDay d) n).hour = d.hour
    rw [ih, nextDay_hour]

theorem addDays_minute (d : DateTime) (k : Nat) :
    (addDays d k).minute = d.minute := by
  induction k generalizing d with
  | zero => rfl
  | succ n ih =>
    show (addDays (nextDay d) n).minute = d.minute
    rw [ih, nextDay_minute]

theorem addDays_second (d : DateTime) (k : Nat) :
    (addDays d k).second = d.second := by
  induction k generalizing d with
  | zero => rfl
  | succ n ih =>
    show (addDays (nextDay d) n).second = d.second
    rw [ih, nextDay_second]

theorem absSec_addDays {d : DateTime} (h : d.ValidDate) (k : Nat) :
    absSec (addDays d k) = absSec d + k * 86400 := by
  simp only [absSec, absMin, absDay_addDays h k, addDays_hour, addDays_minute,
    addDays_second]
  ring

theorem validDate_addHours {d : DateTime} (h : d.ValidDate) (k : Nat) :
    (addHours d k).ValidDate := by
  unfold addHours
  exact validDate_addDays (d := { d with hour := (d.hour + k) % 24 }) h _

theorem validDate_addMinutes {d : DateTime} (h : d.ValidDate) (k : Nat) :
    (addMinutes d k).ValidDate := by
  unfold addMinutes
  exact validDate_addHours (d := { d with minute := (d.minute + k) % 60 }) h _

theorem absSec_addHours {d : DateTime} (h : d.ValidDate) (k : Nat) :
    absSec (addHours d k) = absSec d + k * 3600 := by
  unfold addHours
  rw [absSec_addDays (d := { d with hour := (d.hour + k) % 24 }) h ((d.hour + k) / 24)]
  simp only [absSec, absMin, absDay]
  have := Nat.div_add_mod (d.hour + k) 24
  omega

theorem absSec_addMinutes {d : DateTime} (h : d.ValidDate) (k : Nat) :
    absSec (addMinutes d k) = absSec d + k * 60 := by
  unfold addMinutes
  rw [absSec_addHours (d := { d with minute := (d.minute + k) % 60 }) h ((d.minute + k) / 60)]
  simp only [absSec, absMin, absDay]
  have := Nat.div_add_mod (d.minute + k) 60
  omega

theorem addHours_minute (d : DateTime) (k : Nat) :
    (addHours d k).minute = d.minute := by
  unfold addHours
  rw [addDays_minute]

theorem addHours_second (d : DateTime) (k : Nat) :
    (addHours d k).second = d.second := by
  unfold addHours
  rw [addDays_second]

theorem addHours_hour (d : DateTime) (k : Nat) :
    (addHours d k).hour = (d.hour + k) % 24 := by
  unfold addHours
  rw [addDays_hour]

theorem addMinutes_minute (d : DateTime) (k : Nat) :
    (addMinutes d k).minute = (d.minute + k) % 60 := by
  unfold addMinutes
  rw [addHours_minute]

theorem addMinutes_hour (d : DateTime) (k : Nat) :
    (addMinutes d k).hour = (d.hour + (d.minute + k) / 60) % 24 := by
  unfold addMinutes
  rw [addHours_hour]

theorem addMinutes_second (d : DateTime) (k : Nat) :
    (addMinutes d k).second = d.second := by
  unfold addMinutes
  rw [addHours_second]

/-! ## Python string primitives

Python strings are modelled as `List Char` so every operation is a
structural recursion the kernel can evaluate.  Unicode-only behaviours
(non-ASCII whitespace and digits) are outside the model; the cron texts the
library handles are ASCII. -/

/-- The whitespace class of Python `str.strip` / `str.split` / `int`,
restricted to ASCII. -/
def pyIsSpace (c : Char) : Bool :=
  c = ' ' ∨ c = '\t' ∨ c = '\n' ∨ c = '\r' ∨ c = '\x0b' ∨ c = '\x0c'

/-- Python `str.strip()`. -/
def pyStrip (s : List Char) : List Char :=
  ((s.dropWhile pyIsSpace).reverse.dropWhile pyIsSpace).reverse

def pySplitWsAux : List Char → List Char → List (List Char)
  | [], acc => if acc = [] then [] else [acc.reverse]
  | c :: rest, acc =>
    if pyIsSpace c then
      if acc = [] then pySplitWsAux rest []
      else acc.reverse :: pySplitWsAux rest []
    else pySplitWsAux rest (c :: acc)

/-- Python `str.split()` (no argument): split on whitespace runs,
no empty tokens. -/
def pySplitWs (s : List Char) : List (List Char) := pySplitWsAux s []

def splitOnCharAux (sep : Char) : List Char → List Char → List (List Char)
  | [], acc => [acc.reverse]
  | c :: rest, acc =>
    if c = sep then acc.reverse :: splitOnCharAux sep rest []
    else splitOnCharAux sep rest (c :: acc)

/-- Python `str.split(sep)` for a one-character separator: keeps empty
pieces, `"".split(sep) == ['']`. -/
def splitOnChar (sep : Char) (s : List Char) : List (List Char) :=
  splitOnCharAux sep s []

/-- Python `str.partition(sep)` for a one-character separator, keeping only
the pieces before and after the first occurrence.  When `sep` is absent the
second component is `[]`, which is exactly how `expand_valid` treats it
(it only ever tests that component against `''`). -/
def partitionChar (sep : Char) : List Char → List Char × List Char
  | [] => ([], [])
  | c :: rest =>
    if c = sep then ([], rest)
    else
      let p := partitionChar sep rest
      (c :: p.1, p.2)

/-- ASCII lowercasing, the effect of Python `str.lower()` on ASCII text. -/
def pyToLower (s : List Char) : List Char :=
  s.map fun c => if 'A' ≤ c ∧ c ≤ 'Z' then Char.ofNat (c.toNat + 32) else c

/-- Replace every occurrence of a non-empty pattern, left to right, as
Python `str.replace` does.  `fuel` is the length of the remaining text,
which bounds the recursion. -/
def pyReplaceAux (pat rep : List Char) : Nat → List Char → List Char
  | 0, s => s
  | fuel + 1, s =>
    match s with
    | [] => []
    | c :: rest =>
      if pat.isPrefixOf s then rep ++ pyReplaceAux pat rep fuel (s.drop pat.length)
      else c :: pyReplaceAux pat rep fuel rest

/-- Python `str.replace(pat, rep)` (for the non-empty patterns the source
uses). -/
def pyReplace (s pat rep : List Char) : List Char :=
  if pat = [] then s else pyReplaceAux pat rep s.length s

/-- Digit run of a Python integer literal: digits with single underscores
strictly between digits (`int("1_0") == 10`, `int("1__0")` fails). -/
def pyDigitsAux (acc : Nat) : List Char → Option Nat
  | [] => some acc
  | '_' :: c :: rest =>
    if c.isDigit then pyDigitsAux (acc * 10 + (c.toNat - 48)) rest else none
  | ['_'] => none
  | c :: rest =>
    if c.isDigit then pyDigitsAux (acc * 10 + (c.toNat - 48)) rest else none

def pyParseNat : List Char → Option Nat
  | [] => none
  | c :: rest =>
    if c.isDigit then pyDigitsAux (c.toNat - 48) rest else none

/-- Python `int(str)`: strips whitespace, accepts an optional sign and a
digit run; anything else raises `ValueError` (modelled as `none`). -/
def pyParseInt (s : List Char) : Option Int :=
  match pyStrip s with
  | '+' :: rest => (pyParseNat rest).map Int.ofNat
  | '-' :: rest => (pyParseNat rest).map fun n => -(n : Int)
  | rest => (pyParseNat rest).map Int.ofNat

def natToChars (fuel n : Nat) : List Char :=
  match fuel with
  | 0 => []
  | fuel + 1 =>
    if n < 10 then [Char.ofNat (n + 48)]
    else natToChars fuel (n / 10) ++ [Char.ofNat (n % 10 + 48)]

/-- Python `str(i)` for an integer. -/
def intToChars (i : Int) : List Char :=
  if i < 0 then '-' :: natToChars i.natAbs i.natAbs
  else natToChars (i.toNat + 1) i.toNat

/-! ## `expand_valid` and `first` (module-level helpers of periodiq.py) -/

/-- `first(function, iterable)`: the first item accepted by the predicate;
the `StopIteration` → `ValueError` branch is `none`. -/
def first (p : Int → Bool) : List Int → Option Int
  | [] => none
  | x :: xs => if p x then some x else first p xs

/-- Python `range(start, stop, step)` as a list, for `step ≠ 0`
(`step = 0` raises and is rejected before this function is reached). -/
def pyRange (start stop step : Int) : List Int :=
  if 0 < step then
    if start < stop then
      (List.range (((stop - start - 1).toNat / step.toNat) + 1)).map
        fun i => start + i * step
    else []
  else
    if stop < start then
      (List.range (((start - stop - 1).toNat / (-step).toNat) + 1)).map
        fun i => start + i * step
    else []

/-- Effectful `List.map` over `Option`, written out so its equations are
structural (Python: an exception in any iteration aborts the whole loop). -/
def mapO (f : α → Option β) : List α → Option (List β)
  | [] => some []
  | a :: l => do
    let b ← f a
    let bs ← mapO f l
    some (b :: bs)

/-- `sorted(set(..))`: ascending sort of the distinct values. -/
def sortedDedup (l : List Int) : List Int :=
  List.insertionSort (fun a b => a ≤ b) l.dedup

/-- One comma-separated sub-expression of a cron field:
`range_, _, step = interval.partition('/')`,
`start, _, end = range_.partition('-')`, with Python `int` conversions and
`set(range(start, end + 1, step))`.  `none` is a `ValueError`
(non-numeric token or zero step). -/
def expandInterval (interval : List Char) : Option (List Int) := do
  let p := partitionChar '/' interval
  let step ← if p.2 = [] then some 1 else pyParseInt p.2
  let q := partitionChar '-' p.1
  let start ← pyParseInt q.1
  let stop ← if q.2 = [] then some start else pyParseInt q.2
  if step = 0 then none
  else some (pyRange start (stop + 1) step)

/-- `expand_valid(value, min, max)`: replaces `*` by `min-max`, splits on
commas, expands every sub-expression and returns the sorted deduplicated
union.  NOTE (faithful to the source): `min`/`max` are used only for the
`*` substitution — no bound check is performed on the expanded values. -/
def expand_valid (value : List Char) (min max : Int) : Option (List Int) := do
  let value := pyReplace value ['*'] (intToChars min ++ '-' :: intToChars max)
  let intervals := splitOnChar ',' value
  let lists ← mapO expandInterval intervals
  some (sortedDedup lists.flatten)

/-! ## CronSpec -/

/-- The attributes a fully set-up `CronSpec` instance carries. -/
structure CronSpec where
  minute : List Int
  minute_e : List Int
  hour : List Int
  hour_e : List Int
  dom : List Int
  is_dom_restricted : Bool
  month : List Int
  month_e : List Int
  dow : List Int
  dow_e : List Int
  is_dow_restricted : Bool
  parsed_from : Option String
  deriving DecidableEq

/-- Fields of an object before `setup` ran (Python attributes are simply
absent; every call site below overwrites all of them). -/
def emptySpec : CronSpec :=
  ⟨[], [], [], [], [], false, [], [], [], [], false, none⟩

/-- The `if m is not None:` block of `setup`: with an empty list the
Python code raises `IndexError` on `m[0]`. -/
def setupM (c : CronSpec) : Option (List Int) → Option CronSpec
  | none => some c
  | some l =>
    match l.head? with
    | none => none
    | some x => some { c with minute := l, minute_e := l ++ [60 + x] }

/-- The `if h is not None:` block of `setup`. -/
def setupH (c : CronSpec) : Option (List Int) → Option CronSpec
  | none => some c
  | some l =>
    match l.head? with
    | none => none
    | some x => some { c with hour := l, hour_e := l ++ [24 + x] }

/-- The `if dom is not None:` block of `setup` (no extended set is built
here, so an empty list is accepted). -/
def setupDom (c : CronSpec) : Option (List Int) → Option CronSpec
  | none => some c
  | some l =>
    some { c with is_dom_restricted := decide (l.length < 31), dom := l }

/-- The `if month is not None:` block of `setup`. -/
def setupMonth (c : CronSpec) : Option (List Int) → Option CronSpec
  | none => some c
  | some l =>
    match l.head? with
    | none => none
    | some x => some { c with month := l, month_e := l ++ [12 + x] }

/-- The `if dow is not None:` block of `setup`. -/
def setupDow (c : CronSpec) : Option (List Int) → Option CronSpec
  | none => some c
  | some l =>
    match l.head? with
    | none => none
    | some x =>
      some { c with is_dow_restricted := decide (l.length < 7),
                    dow := l, dow_e := l ++ [7 + x] }

/-- `CronSpec.setup(m, h, dom, month, dow)`: the five conditional field
updates in source order, then invalidation of `parsed_from`. -/
def CronSpec.setup (c : CronSpec) (m h dom month dow : Option (List Int)) :
    Option CronSpec := do
  let c ← setupM c m
  let c ← setupH c h
  let c ← setupDom c dom
  let c ← setupMonth c month
  let c ← setupDow c dow
  some { c with parsed_from := none }

/-- `CronSpec.__init__`: runs `setup` on all five fields, then stores the
source text. -/
def CronSpec.init (m h dom month dow : List Int) (parsedFrom : Option String) :
    Option CronSpec :=
  (CronSpec.setup emptySpec (some m) (some h) (some dom) (some month)
      (some dow)).map
    fun c => { c with parsed_from := parsedFrom }

/-- `CronSpec.replace(...)`: deep-copies the object and re-runs `setup` on
the copy, so the receiver is left untouched (in this embedding `replace` is
a pure function of the receiver). -/
def CronSpec.replace (c : CronSpec) (m h dom month dow : Option (List Int)) :
    Option CronSpec :=
  c.setup m h dom month dow

def namedSpec (s : List Char) : Option (List Char) :=
  if s = "@yearly".data then some "0 0 1 1 *".data
  else if s = "@annually".data then some "0 0 1 1 *".data
  else if s = "@monthly".data then some "0 0 1 * *".data
  else if s = "@weekly".data then some "0 0 * * 0".data
  else if s = "@daily".data then some "0 0 * * *".data
  else if s = "@midnight".data then some "0 0 * * *".data
  else if s = "@hourly".data then some "0 * * * *".data
  else none

/-- Substitute weekday names by their index, in the source's order
(`sun`→`0` … `sat`→`6`), by whole-string replacement. -/
def replaceWeekdays (s : List Char) : List Char :=
  let s := pyReplace s "sun".data "0".data
  let s := pyReplace s "mon".data "1".data
  let s := pyReplace s "tue".data "2".data
  let s := pyReplace s "wed".data "3".data
  let s := pyReplace s "thu".data "4".data
  let s := pyReplace s "fri".data "5".data
  pyReplace s "sat".data "6".data

/-- The body of `CronSpec.parse` after alias substitution: whitespace
split (`IndexError` when fewer than 5 fields; fields past the fifth are
never read), weekday-name substitution in the day-of-week field, then one
`expand_valid` per field and construction. -/
def parseFields (spec : String) (fields1 : List Char) : Option CronSpec := do
  let fields := pySplitWs fields1
  let f4 ← fields[4]?
  let f0 ← fields[0]?
  let f1 ← fields[1]?
  let f2 ← fields[2]?
  let f3 ← fields[3]?
  let dowStr := replaceWeekdays (pyToLower f4)
  let m ← expand_valid f0 0 59
  let h ← expand_valid f1 0 23
  let dom ← expand_valid f2 1 31
  let month ← expand_valid f3 1 12
  let dow ← expand_valid dowStr 0 7
  CronSpec.init m h dom month dow (some spec)

/-- `CronSpec.parse(spec)`: strip, alias substitution (`KeyError` on an
unknown alias), then parsing of the five fields. -/
def CronSpec.parse (spec : String) : Option CronSpec := do
  let fields0 := pyStrip spec.data
  let fields1 ←
    if fields0.head? = some '@' then namedSpec fields0 else some fields0
  parseFields spec fields1

/-- `CronSpec.validate(date)`, structured exactly like the source: minute,
hour and month membership, then the day condition (OR of dom/dow when both
are restricted, otherwise both individual checks — an unrestricted field's
check passes because the set covers every value the date can produce…
except for the `dow` 0/7 asymmetry proved below). -/
def CronSpec.validate (c : CronSpec) (date : DateTime) : Bool :=
  if ¬ ((date.minute : Int) ∈ c.minute) then false
  else if ¬ ((date.hour : Int) ∈ c.hour) then false
  else if ¬ ((date.month : Int) ∈ c.month) then false
  else
    let weekday : Int := date.isoweekday
    if c.is_dow_restricted ∧ c.is_dom_restricted then
      if ¬ ((date.day : Int) ∈ c.dom ∨ weekday ∈ c.dow) then false else true
    else
      if ¬ ((date.day : Int) ∈ c.dom) then false
      else if ¬ (weekday ∈ c.dow) then false
      else true

/-- `monthesrange(start_year, start_month, end_month)`: day counts of the
months `start_month … end_month - 1`, month numbers taken modulo 12 into
the following years. -/
def monthesrange (startYear startMonth : Nat) (endMonth : Int) : List Nat :=
  let s := startMonth - 1
  (List.range' s ((endMonth - 1).toNat - s)).map
    fun mm => monthLen (startYear + mm / 12) (1 + mm % 12)

/-- `CronSpec.next_valid_date(last)`.  The `(x - y).toNat` conversions
mirror `first(..) - n.minute` etc.: the searched value satisfies
`x ≥ current`, so the Python delta is the same non-negative integer. -/
def CronSpec.next_valid_date (c : CronSpec) (last : DateTime) :
    Option DateTime := do
  -- Reset second and microsecond, then advance by one minute.
  let n := addMinutes { last with second := 0 } 1
  -- Minutes to wait until the next valid minute.
  let vm ← first (fun x => (n.minute : Int) ≤ x) c.minute_e
  let n := addMinutes n (vm - n.minute).toNat
  -- Hours to wait until the next valid hour.
  let vh ← first (fun x => (n.hour : Int) ≤ x) c.hour_e
  let n := addHours n (vh - n.hour).toNat
  -- Days to wait until the next valid weekday.
  let lastDow := n.isoweekday % 7
  let vdow ← first (fun x => (lastDow : Int) ≤ x) c.dow_e
  let delayDow := (vdow - lastDow).toNat
  -- Days to wait until the next valid monthday, with the days this month
  -- cannot reach dropped and a sentinel for the next month appended.
  let monthDays := monthLen n.year n.month
  let d0 ← c.dom.head?
  let domE := c.dom.filter (fun x => x ≤ (monthDays : Int)) ++
    [(monthDays : Int) + d0]
  let vdom ← first (fun x => (n.day : Int) ≤ x) domE
  let delayDom := (vdom - n.day).toNat
  let delayD :=
    if c.is_dow_restricted && c.is_dom_restricted then Nat.min delayDow delayDom
    else if c.is_dow_restricted then delayDow
    else delayDom
  let n := addDays n delayD
  -- Days to wait until the next valid month.
  let vmon ← first (fun x => (n.month : Int) ≤ x) c.month_e
  let delayD2 := (monthesrange n.year n.month vmon).sum
  some (addDays n delayD2)

/-! ## Formatting (`__str__`, `format_cron`, `format_interval`,
`group_intervals`) -/

def group_intervals_aux (start last : Int) : List Int → List (Int × Int)
  | [] => [(start, last)]
  | v :: rest =>
    if v - last > 1 then (start, last) :: group_intervals_aux v v rest
    else group_intervals_aux start v rest

/-- `group_intervals(values)`: maximal runs with gaps ≤ 1, as
`(start, last)` pairs (the Python generator needs a non-empty list;
`[]` is only reachable through states the callers below rule out first). -/
def group_intervals : List Int → List (Int × Int)
  | [] => []
  | v :: rest => group_intervals_aux v v rest

/-- Python list indexing `l[i]` with negative-index wrap-around and
`IndexError` as `none`. -/
def pyIndex (l : List α) (i : Int) : Option α :=
  if 0 ≤ i then l[i.toNat]?
  else if (-i).toNat ≤ l.length then l[(l.length - (-i).toNat)]? else none

def pySliceIdx (len : Nat) (i : Int) : Nat :=
  if i < 0 then ((len : Int) + i).toNat else Nat.min i.toNat len

/-- Python slicing `l[a:b]` (clamping, never raising). -/
def pySlice (l : List α) (a b : Int) : List α :=
  let lo := pySliceIdx l.length a
  let hi := pySliceIdx l.length b
  (l.drop lo).take (hi - lo)

/-- `sep.join(pieces)`. -/
def joinChars (sep : Char) : List (List Char) → List Char
  | [] => []
  | [x] => x
  | x :: xs => x ++ sep :: joinChars sep xs

/-- `format_interval(start, stop, names)` (the `names` value at both call
sites is either `None` or a fixed non-empty list, matching Python's
truthiness test). -/
def format_interval (start stop : Int) (names : Option (List (List Char))) :
    Option (List Char) :=
  if stop = start then
    match names with
    | none => some (intToChars start)
    | some ns => pyIndex ns start
  else
    match names with
    | some ns => some (joinChars ',' (pySlice ns start (stop + 1)))
    | none => some (intToChars start ++ '-' :: intToChars stop)

/-- `format_cron(values, min_, max_, names)`: `*` when the set spans the
whole domain, otherwise the comma-joined runs.  `none` models the
`IndexError` on an empty value list. -/
def format_cron (values : List Int) (min_ max_ : Int)
    (names : Option (List (List Char))) : Option (List Char) :=
  match values with
  | [] => none
  | v0 :: _ =>
    if min_ = v0 ∧ values.getLastD v0 = max_ then some ['*']
    else
      (mapO (fun p => format_interval p.1 p.2 names)
          (group_intervals values)).map (joinChars ',')

def dowNames : List (List Char) :=
  ["Sun".data, "Mon".data, "Tue".data, "Wed".data, "Thu".data, "Fri".data,
   "Sat".data, "Sun".data]

/-- The re-derived canonical text of a spec (the `else` branch of
`CronSpec.__str__`). -/
def canonicalChars (c : CronSpec) : Option (List Char) := do
  let a ← format_cron c.minute 0 59 none
  let b ← format_cron c.hour 0 23 none
  let d ← format_cron c.dom 1 31 none
  let e ← format_cron c.month 1 12 none
  let f ← format_cron c.dow 0 7 (some dowNames)
  some (joinChars ' ' [a, b, d, e, f])

/-- `CronSpec.__str__`: the stored source text verbatim when present,
otherwise the re-derived canonical form. -/
def pyStr (c : CronSpec) : Option String :=
  match c.parsed_from with
  | some s => some s
  | none => (canonicalChars c).map String.mk

/-! ## General lemmas about the helpers -/

theorem first_eq_some {p : Int → Bool} {l : List Int} {x : Int}
    (h : first p l = some x) : p x = true := by
  induction l with
  | nil => simp [first] at h
  | cons a l ih =>
    by_cases hpa : p a = true
    · simp [first, hpa] at h
      exact h ▸ hpa
    · simp [first, hpa] at h ⊢
      exact ih h

theorem first_isSome {p : Int → Bool} {l : List Int}
    (h : ∃ y ∈ l, p y = true) : ∃ x, first p l = some x := by
  induction l with
  | nil => simp at h
  | cons a l ih =>
    by_cases hpa : p a = true
    · exact ⟨a, by simp [first, hpa]⟩
    · rcases h with ⟨y, hy, hpy⟩
      rcases List.mem_cons.mp hy with rfl | hy
      · exact absurd hpy hpa
      · rcases ih ⟨y, hy, hpy⟩ with ⟨x, hx⟩
        exact ⟨x, by simp [first, hpa, hx]⟩

theorem mapO_eq_none_iff {f : α → Option β} {l : List α} :
    mapO f l = none ↔ ∃ a ∈ l, f a = none := by
  induction l with
  | nil => simp [mapO]
  | cons a l ih =>
    cases hfa : f a with
    | none => simp [mapO, hfa]
    | some b =>
      cases hml : mapO f l with
      | none =>
        simp only [mapO, hfa, hml, Option.bind_eq_bind, Option.some_bind,
          Option.none_bind, List.mem_cons]
        constructor
        · intro _
          obtain ⟨x, hx, hfx⟩ := ih.mp hml
          exact ⟨x, Or.inr hx, hfx⟩
        · intro _; trivial
      | some bs =>
        simp only [mapO, hfa, hml, Option.bind_eq_bind, Option.some_bind,
          List.mem_cons]
        constructor
        · intro hc; cases hc
        · rintro ⟨x, hx, hfx⟩
          rcases hx with rfl | hx
          · rw [hfa] at hfx; cases hfx
          · have h2 := ih.mpr ⟨x, hx, hfx⟩
            rw [hml] at h2; cases h2

theorem sortedDedup_sorted_lt (l : List Int) :
    (sortedDedup l).Sorted (· < ·) := by
  have hs : (sortedDedup l).Sorted (· ≤ ·) :=
    List.sorted_insertionSort (fun a b => a ≤ b) l.dedup
  have hn : (sortedDedup l).Nodup :=
    ((List.perm_insertionSort (fun a b => a ≤ b) l.dedup).nodup_iff).mpr
      l.nodup_dedup
  exact List.Sorted.lt_of_le hs hn

theorem mem_sortedDedup {l : List Int} {x : Int} :
    x ∈ sortedDedup l ↔ x ∈ l := by
  unfold sortedDedup
  rw [(List.perm_insertionSort (fun a b => a ≤ b) l.dedup).mem_iff]
  exact List.mem_dedup

theorem headD_mem {l : List Int} (h : l ≠ []) : l.headD 0 ∈ l := by
  cases l with
  | nil => exact absurd rfl h
  | cons a l => simp

/-- `absSec` through the composite of additions performed by
`next_valid_date` after the initial one-minute step. -/
theorem absSec_comp {d : DateTime} (h : d.ValidDate) (k1 k2 k3 k4 : Nat) :
    absSec (addDays (addDays (addHours (addMinutes d k1) k2) k3) k4)
      = absSec d + k1 * 60 + k2 * 3600 + k3 * 86400 + k4 * 86400 := by
  rw [absSec_addDays
        (validDate_addDays (validDate_addHours (validDate_addMinutes h k1) k2)
          k3) k4,
      absSec_addDays (validDate_addHours (validDate_addMinutes h k1) k2) k3,
      absSec_addHours (validDate_addMinutes h k1) k2,
      absSec_addMinutes h k1]

theorem setupM_spec {c ca : CronSpec} {o : Option (List Int)}
    (hs : setupM c o = some ca) :
    ca.hour = c.hour ∧ ca.hour_e = c.hour_e ∧ ca.dom = c.dom ∧
    ca.is_dom_restricted = c.is_dom_restricted ∧ ca.month = c.month ∧
    ca.month_e = c.month_e ∧ ca.dow = c.dow ∧ ca.dow_e = c.dow_e ∧
    ca.is_dow_restricted = c.is_dow_restricted ∧
    ca.parsed_from = c.parsed_from ∧
    (o = none → ca.minute = c.minute ∧ ca.minute_e = c.minute_e) ∧
    (∀ l, o = some l →
      ca.minute = l ∧ ca.minute_e = l ++ [60 + l.headD 0]) := by
  rcases o with _ | ⟨_ | ⟨a, tl⟩⟩ <;> simp [setupM] at hs <;> subst hs <;> simp

theorem setupH_spec {c ca : CronSpec} {o : Option (List Int)}
    (hs : setupH c o = some ca) :
    ca.minute = c.minute ∧ ca.minute_e = c.minute_e ∧ ca.dom = c.dom ∧
    ca.is_dom_restricted = c.is_dom_restricted ∧ ca.month = c.month ∧
    ca.month_e = c.month_e ∧ ca.dow = c.dow ∧ ca.dow_e = c.dow_e ∧
    ca.is_dow_restricted = c.is_dow_restricted ∧
    ca.parsed_from = c.parsed_from ∧
    (o = none → ca.hour = c.hour ∧ ca.hour_e = c.hour_e) ∧
    (∀ l, o = some l →
      ca.hour = l ∧ ca.hour_e = l ++ [24 + l.headD 0]) := by
  rcases o with _ | ⟨_ | ⟨a, tl⟩⟩ <;> simp [setupH] at hs <;> subst hs <;> simp

theorem setupDom_spec {c ca : CronSpec} {o : Option (List Int)}
    (hs : setupDom c o = some ca) :
    ca.minute = c.minute ∧ ca.minute_e = c.minute_e ∧ ca.hour = c.hour ∧
    ca.hour_e = c.hour_e ∧ ca.month = c.month ∧ ca.month_e = c.month_e ∧
    ca.dow = c.dow ∧ ca.dow_e = c.dow_e ∧
    ca.is_dow_restricted = c.is_dow_restricted ∧
    ca.parsed_from = c.parsed_from ∧
    (o = none → ca.dom = c.dom ∧
      ca.is_dom_restricted = c.is_dom_restricted) ∧
    (∀ l, o = some l →
      ca.dom = l ∧ ca.is_dom_restricted = decide (l.length < 31)) := by
  rcases o with _ | l <;> simp [setupDom] at hs <;> subst hs <;> simp

theorem setupMonth_spec {c ca : CronSpec} {o : Option (List Int)}
    (hs : setupMonth c o = some ca) :
    ca.minute = c.minute ∧ ca.minute_e = c.minute_e ∧ ca.hour = c.hour ∧
    ca.hour_e = c.hour_e ∧ ca.dom = c.dom ∧
    ca.is_dom_restricted = c.is_dom_restricted ∧ ca.dow = c.dow ∧
    ca.dow_e = c.dow_e ∧ ca.is_dow_restricted = c.is_dow_restricted ∧
    ca.parsed_from = c.parsed_from ∧
    (o = none → ca.month = c.month ∧ ca.month_e = c.month_e) ∧
    (∀ l, o = some l →
      ca.month = l ∧ ca.month_e = l ++ [12 + l.headD 0]) := by
  rcases o with _ | ⟨_ | ⟨a, tl⟩⟩ <;> simp [setupMonth] at hs <;> subst hs <;>
    simp

theorem setupDow_spec {c ca : CronSpec} {o : Option (List Int)}
    (hs : setupDow c o = some ca) :
    ca.minute = c.minute ∧ ca.minute_e = c.minute_e ∧ ca.hour = c.hour ∧
    ca.hour_e = c.hour_e ∧ ca.dom = c.dom ∧
    ca.is_dom_restricted = c.is_dom_restricted ∧ ca.month = c.month ∧
    ca.month_e = c.month_e ∧ ca.parsed_from = c.parsed_from ∧
    (o = none → ca.dow = c.dow ∧ ca.dow_e = c.dow_e ∧
      ca.is_dow_restricted = c.is_dow_restricted) ∧
    (∀ l, o = some l → ca.dow = l ∧ ca.dow_e = l ++ [7 + l.headD 0] ∧
      ca.is_dow_restricted = decide (l.length < 7)) := by
  rcases o with _ | ⟨_ | ⟨a, tl⟩⟩ <;> simp [setupDow] at hs <;> subst hs <;>
    simp

theorem setup_fields {c c2 : CronSpec} {m h dom month dow : Option (List Int)}
    (hs : c.setup m h dom month dow = some c2) :
    c2.parsed_from = none ∧
    (m = none → c2.minute = c.minute ∧ c2.minute_e = c.minute_e) ∧
    (∀ l, m = some l → c2.minute = l ∧ c2.minute_e = l ++ [60 + l.headD 0]) ∧
    (h = none → c2.hour = c.hour ∧ c2.hour_e = c.hour_e) ∧
    (∀ l, h = some l → c2.hour = l ∧ c2.hour_e = l ++ [24 + l.headD 0]) ∧
    (dom = none → c2.dom = c.dom ∧
      c2.is_dom_restricted = c.is_dom_restricted) ∧
    (∀ l, dom = some l → c2.dom = l ∧
      c2.is_dom_restricted = decide (l.length < 31)) ∧
    (month = none → c2.month = c.month ∧ c2.month_e = c.month_e) ∧
    (∀ l, month = some l → c2.month = l ∧
      c2.month_e = l ++ [12 + l.headD 0]) ∧
    (dow = none → c2.dow = c.dow ∧ c2.dow_e = c.dow_e ∧
      c2.is_dow_restricted = c.is_dow_restricted) ∧
    (∀ l, dow = some l → c2.dow = l ∧ c2.dow_e = l ++ [7 + l.headD 0] ∧
      c2.is_dow_restricted = decide (l.length < 7)) := by
  simp only [CronSpec.setup, Option.bind_eq_bind, Option.bind_eq_some] at hs
  obtain ⟨ca, hca, hs⟩ := hs
  obtain ⟨cb, hcb, hs⟩ := hs
  obtain ⟨cc, hcc, hs⟩ := hs
  obtain ⟨cd, hcd, hs⟩ := hs
  obtain ⟨ce, hce, hs⟩ := hs
  injection hs with hs
  subst hs
  obtain ⟨hA_h, hA_he, hA_dom, hA_domr, hA_mo, hA_moe, hA_dw, hA_dwe,
    hA_dwr, hA_pf, hA_n, hA_s⟩ := setupM_spec hca
  obtain ⟨hB_m, hB_me, hB_dom, hB_domr, hB_mo, hB_moe, hB_dw, hB_dwe,
    hB_dwr, hB_pf, hB_n, hB_s⟩ := setupH_spec hcb
  obtain ⟨hC_m, hC_me, hC_h, hC_he, hC_mo, hC_moe, hC_dw, hC_dwe, hC_dwr,
    hC_pf, hC_n, hC_s⟩ := setupDom_spec hcc
  obtain ⟨hD_m, hD_me, hD_h, hD_he, hD_dom, hD_domr, hD_dw, hD_dwe, hD_dwr,
    hD_pf, hD_n, hD_s⟩ := setupMonth_spec hcd
  obtain ⟨hE_m, hE_me, hE_h, hE_he, hE_dom, hE_domr, hE_mo, hE_moe, hE_pf,
    hE_n, hE_s⟩ := setupDow_spec hce
  refine ⟨rfl, ?_, ?_, ?_, ?_, ?_, ?_, ?_, ?_, ?_, ?_⟩
  · intro hm
    exact ⟨by simp [hE_m, hD_m, hC_m, hB_m, (hA_n hm).1],
      by simp [hE_me, hD_me, hC_me, hB_me, (hA_n hm).2]⟩
  · intro l hm
    exact ⟨by simp [hE_m, hD_m, hC_m, hB_m, (hA_s l hm).1],
      by simp [hE_me, hD_me, hC_me, hB_me, (hA_s l hm).2]⟩
  · intro hh
    exact ⟨by simp [hE_h, hD_h, hC_h, (hB_n hh).1, hA_h],
      by simp [hE_he, hD_he, hC_he, (hB_n hh).2, hA_he]⟩
  · intro l hh
    exact ⟨by simp [hE_h, hD_h, hC_h, (hB_s l hh).1],
      by simp [hE_he, hD_he, hC_he, (hB_s l hh).2]⟩
  · intro hd
    exact ⟨by simp [hE_dom, hD_dom, (hC_n hd).1, hB_dom, hA_dom],
      by simp [hE_domr, hD_domr, (hC_n hd).2, hB_domr, hA_domr]⟩
  · intro l hd
    exact ⟨by simp [hE_dom, hD_dom, (hC_s l hd).1],
      by simp [hE_domr, hD_domr, (hC_s l hd).2]⟩
  · intro hmo
    exact ⟨by simp [hE_mo, (hD_n hmo).1, hC_mo, hB_mo, hA_mo],
      by simp [hE_moe, (hD_n hmo).2, hC_moe, hB_moe, hA_moe]⟩
  · intro l hmo
    exact ⟨by simp [hE_mo, (hD_s l hmo).1], by simp [hE_moe, (hD_s l hmo).2]⟩
  · intro hw
    exact ⟨by simp [(hE_n hw).1, hD_dw, hC_dw, hB_dw, hA_dw],
      by simp [(hE_n hw).2.1, hD_dwe, hC_dwe, hB_dwe, hA_dwe],
      by simp [(hE_n hw).2.2, hD_dwr, hC_dwr, hB_dwr, hA_dwr]⟩
  · intro l hw
    exact ⟨by simp [(hE_s l hw).1], by simp [(hE_s l hw).2.1],
      by simp [(hE_s l hw).2.2]⟩

theorem getElem?_eq_getD {α : Type _} {l : List α} {i : Nat} {d : α}
    (h : i < l.length) : l[i]? = some (l.getD i d) := by
  rw [List.getD_eq_getElem?_getD, List.getElem?_eq_getElem h]
  rfl

/-- `CronSpec.__init__` succeeds exactly when the four fields that get an
extended set are non-empty (an empty `dom` slips through, since `setup`
builds no extended set for it). -/
theorem init_isSome_iff {m h1 dom mo dw : List Int} {pf : Option String} :
    (CronSpec.init m h1 dom mo dw pf).isSome ↔
      (m ≠ [] ∧ h1 ≠ [] ∧ mo ≠ [] ∧ dw ≠ []) := by
  cases m <;> cases h1 <;> cases mo <;> cases dw <;>
    simp [CronSpec.init, CronSpec.setup, setupM, setupH, setupDom,
      setupMonth, setupDow]

/-! ## The claims -/

/-- C1 (code bug).  The claim `validate(next_valid_date(t))` fails on the
code: for the parsed spec `"0 0 * 2 *"` (midnight, every day, February
only) and `last = 2021-01-30T23:00:00`, `next_valid_date` advances the
candidate to 2021-01-31T00:00 and then adds the 31 days of January to
reach the month `2`, landing on 2021-03-03T00:00:00 — a date in March,
which `validate` rejects.  (Adding the skipped months' day counts does not
preserve the day-of-month, and the day/month fields are never
re-checked.) -/
theorem c1_next_valid_date_breaks_validate :
    ((CronSpec.parse "0 0 * 2 *").bind fun c =>
        c.next_valid_date ⟨2021, 1, 30, 23, 0, 0⟩) =
      some ⟨2021, 3, 3, 0, 0, 0⟩ ∧
    ((CronSpec.parse "0 0 * 2 *").bind fun c =>
        (c.next_valid_date ⟨2021, 1, 30, 23, 0, 0⟩).map c.validate) =
      some false := by
  constructor
  · decide
  · decide

/-- C2 (confirmed).  For every `CronSpec` and every real timestamp `t`,
whenever `next_valid_date` returns a result it is strictly greater than
`t`: the candidate starts from `t` truncated to the minute plus exactly
one minute, and every later step adds a non-negative amount of minutes,
hours or days. -/
theorem c2_next_valid_date_strictly_increases (c : CronSpec) (t r : DateTime)
    (ht : t.Valid) (h : c.next_valid_date t = some r) :
    absSec t < absSec r := by
  simp only [CronSpec.next_valid_date, Option.bind_eq_bind,
    Option.bind_eq_some] at h
  obtain ⟨vm, hvm, h⟩ := h
  obtain ⟨vh, hvh, h⟩ := h
  obtain ⟨vdow, hvdow, h⟩ := h
  obtain ⟨d0, hd0, h⟩ := h
  obtain ⟨vdom, hvdom, h⟩ := h
  obtain ⟨vmon, hvmon, h⟩ := h
  injection h with h
  subst h
  have hvd : DateTime.ValidDate { t with second := 0 } := ht.1
  rw [absSec_comp (validDate_addMinutes hvd 1), absSec_addMinutes hvd 1]
  have hsec : absSec { t with second := 0 } + t.second = absSec t := by
    simp [absSec, absMin, absDay]
  have h60 : t.second < 60 := ht.2.2.2
  omega

theorem c2_witness :
    absSec (⟨2024, 6, 1, 0, 0, 30⟩ : DateTime) <
      absSec (⟨2024, 6, 1, 0, 1, 0⟩ : DateTime) :=
  c2_next_valid_date_strictly_increases
    ((CronSpec.parse "* * * * *").getD emptySpec)
    ⟨2024, 6, 1, 0, 0, 30⟩ ⟨2024, 6, 1, 0, 1, 0⟩ (by decide) (by decide)

/-- C8 (confirmed).  Whenever `parse` succeeds, the string conversion of
the resulting spec is the original input text, verbatim: `parse` stores
its argument in `parsed_from` and `__str__` returns that text when it is
present.  In particular `format(parse(x)) = x` for every canonical
non-alias `x` that parses. -/
theorem parseFields_parsed_from {x : String} {fields1 : List Char}
    {cs : CronSpec} (h : parseFields x fields1 = some cs) :
    cs.parsed_from = some x := by
  simp only [parseFields, Option.bind_eq_bind, Option.bind_eq_some] at h
  obtain ⟨f4, hf4, h⟩ := h
  obtain ⟨f0, hf0, h⟩ := h
  obtain ⟨f1, hf1, h⟩ := h
  obtain ⟨f2, hf2, h⟩ := h
  obtain ⟨f3, hf3, h⟩ := h
  obtain ⟨m, hm, h⟩ := h
  obtain ⟨hh, hhh, h⟩ := h
  obtain ⟨dom, hdom, h⟩ := h
  obtain ⟨month, hmonth, h⟩ := h
  obtain ⟨dow, hdow, h⟩ := h
  rw [CronSpec.init, Option.map_eq_some'] at h
  obtain ⟨c0, _, h⟩ := h
  subst h
  rfl

theorem c8_parse_format_roundtrip (x : String) (cs : CronSpec)
    (h : CronSpec.parse x = some cs) : pyStr cs = some x := by
  simp only [CronSpec.parse] at h
  split at h
  · simp only [Option.bind_eq_bind, Option.bind_eq_some] at h
    obtain ⟨fs, hfs, h⟩ := h
    simp [pyStr, parseFields_parsed_from h]
  · simp only [Option.bind_eq_bind, Option.some_bind] at h
    simp [pyStr, parseFields_parsed_from h]

theorem c8_witness :
    pyStr ((CronSpec.parse "0 0 1 1 *").getD emptySpec) =
      some "0 0 1 1 *" :=
  c8_parse_format_roundtrip "0 0 1 1 *"
    ((CronSpec.parse "0 0 1 1 *").getD emptySpec) (by decide)

/-- C4 (code bug).  Day-of-week value 0 does NOT behave as Sunday in
`validate`: `parse` maps `sun`/`0` to the set value 0, but `validate`
compares it against `date.isoweekday()`, which ranges over 1..7
(Sunday = 7).  Hence the spec `"* * * * 0"` validates NO timestamp at all,
while `"* * * * 7"` correctly validates Sundays — the two parsed specs
disagree on 2024-01-07 (a Sunday), refuting the claim that 0 and 7 are
interchangeable.  (The code's own `@weekly` alias expands to
`"0 0 * * 0"`, which this asymmetry makes unsatisfiable, and
`next_valid_date` maps Sundays to `isoweekday % 7 = 0` — so `validate`
contradicts both.) -/
theorem c4_dow_zero_never_matches_validate :
    (∀ d : DateTime,
        ((CronSpec.parse "* * * * 0").getD emptySpec).validate d = false) ∧
    ((CronSpec.parse "* * * * 7").getD emptySpec).validate
        ⟨2024, 1, 7, 10, 30, 0⟩ = true ∧
    (⟨2024, 1, 7, 10, 30, 0⟩ : DateTime).isoweekday = 7 := by
  refine ⟨?_, by decide, by decide⟩
  intro d
  have h1 : ((CronSpec.parse "* * * * 0").getD emptySpec).dow = [0] := by
    decide
  have h2 : ((CronSpec.parse "* * * * 0").getD emptySpec).is_dow_restricted
      = true := by decide
  have h3 : ((CronSpec.parse "* * * * 0").getD emptySpec).is_dom_restricted
      = false := by decide
  simp only [CronSpec.validate, h1, h2, h3]
  simp only [Bool.false_eq_true, and_false, if_false]
  split
  · rfl
  split
  · rfl
  split
  · rfl
  split
  · rfl
  split
  · rfl
  rename_i hw
  exfalso
  rw [not_not] at hw
  simp only [List.mem_singleton] at hw
  simp only [DateTime.isoweekday] at hw
  omega

/-- C5 (confirmed).  When both the day-of-month and the day-of-week field
are restricted, `validate`'s day condition is the disjunction
`day ∈ dom ∨ weekday ∈ dow`; and on the parsed spec `"0 0 1,15 * 1"` the
three timestamps of the claim evaluate as stated (2024-01-01 via the dom
branch, 2024-01-08 via the Monday branch, 2024-01-02 neither). -/
theorem c5_validate_day_or_rule :
    (∀ (c : CronSpec) (d : DateTime),
        c.is_dow_restricted = true → c.is_dom_restricted = true →
        (c.validate d = true ↔
          ((d.minute : Int) ∈ c.minute ∧ (d.hour : Int) ∈ c.hour ∧
            (d.month : Int) ∈ c.month ∧
            ((d.day : Int) ∈ c.dom ∨ (d.isoweekday : Int) ∈ c.dow)))) ∧
    ((CronSpec.parse "0 0 1,15 * 1").map fun c =>
        (c.validate ⟨2024, 1, 1, 0, 0, 0⟩, c.validate ⟨2024, 1, 8, 0, 0, 0⟩,
          c.validate ⟨2024, 1, 2, 0, 0, 0⟩)) = some (true, true, false) := by
  constructor
  · intro c d hdow hdom
    by_cases hm : (d.minute : Int) ∈ c.minute <;>
    by_cases hh : (d.hour : Int) ∈ c.hour <;>
    by_cases hmo : (d.month : Int) ∈ c.month <;>
    by_cases hd : ((d.day : Int) ∈ c.dom ∨ (d.isoweekday : Int) ∈ c.dow) <;>
      simp [CronSpec.validate, hdow, hdom, hm, hh, hmo, hd]
  · decide

/-- The invariants `setup` establishes for a spec whose fields are
non-empty and lie in their domains (as the claim's hypothesis puts it,
"produced by `expand_valid` within its `[min,max]` domain"): each base set
is non-empty with values bounded below by the domain minimum, and each
extended set is the base set with the sentinel `period + first element`
appended.  Only these consequences of being in-domain are needed. -/
def SpecValid (c : CronSpec) : Prop :=
  c.minute ≠ [] ∧ (∀ x ∈ c.minute, 0 ≤ x) ∧
  c.minute_e = c.minute ++ [60 + c.minute.headD 0] ∧
  c.hour ≠ [] ∧ (∀ x ∈ c.hour, 0 ≤ x) ∧
  c.hour_e = c.hour ++ [24 + c.hour.headD 0] ∧
  c.dow ≠ [] ∧ (∀ x ∈ c.dow, 0 ≤ x) ∧
  c.dow_e = c.dow ++ [7 + c.dow.headD 0] ∧
  c.month ≠ [] ∧ (∀ x ∈ c.month, 1 ≤ x) ∧
  c.month_e = c.month ++ [12 + c.month.headD 0] ∧
  c.dom ≠ [] ∧ (∀ x ∈ c.dom, 1 ≤ x)

instance (c : CronSpec) : Decidable (SpecValid c) :=
  decidable_of_iff
    (c.minute ≠ [] ∧ (∀ x ∈ c.minute, 0 ≤ x) ∧
      c.minute_e = c.minute ++ [60 + c.minute.headD 0] ∧
      c.hour ≠ [] ∧ (∀ x ∈ c.hour, 0 ≤ x) ∧
      c.hour_e = c.hour ++ [24 + c.hour.headD 0] ∧
      c.dow ≠ [] ∧ (∀ x ∈ c.dow, 0 ≤ x) ∧
      c.dow_e = c.dow ++ [7 + c.dow.headD 0] ∧
      c.month ≠ [] ∧ (∀ x ∈ c.month, 1 ≤ x) ∧
      c.month_e = c.month ++ [12 + c.month.headD 0] ∧
      c.dom ≠ [] ∧ (∀ x ∈ c.dom, 1 ≤ x))
    Iff.rfl

/-- C3 (confirmed).  For a spec whose field sets are non-empty and within
their domains, every "first value ≥ x" search performed by
`next_valid_date` succeeds — each extended set ends in a sentinel
`period + first element` that dominates every in-range x, and the
per-month dom variant ends in `month_days + dom[0] > month_days ≥ day` —
so the `ValueError` branch of `first` (the spec's SearchError) is never
taken and `next_valid_date` always returns a result. -/
theorem c3_extended_sets_make_search_total (c : CronSpec) (t : DateTime)
    (hc : SpecValid c) (ht : t.Valid) :
    ∃ r, c.next_valid_date t = some r := by
  obtain ⟨hm_ne, hm_lb, hm_e, hh_ne, hh_lb, hh_e, hw_ne, hw_lb, hw_e,
    hmo_ne, hmo_lb, hmo_e, hd_ne, hd_lb⟩ := hc
  simp only [CronSpec.next_valid_date, Option.bind_eq_bind]
  set n0 := addMinutes { t with second := 0 } 1 with hn0
  have hvd0 : n0.ValidDate := by
    rw [hn0]
    exact validDate_addMinutes (d := { t with second := 0 }) ht.1 1
  have hlt0 : n0.minute < 60 := by
    rw [hn0, addMinutes_minute]; exact Nat.mod_lt _ (by norm_num)
  have hval0 : (0 : Int) ≤ c.minute.headD 0 := hm_lb _ (headD_mem hm_ne)
  obtain ⟨vm, hvm⟩ := first_isSome
    (p := fun x => decide ((n0.minute : Int) ≤ x)) (l := c.minute_e)
    ⟨60 + c.minute.headD 0,
      by rw [hm_e]; exact List.mem_append_right _ (by simp),
      by simp only [decide_eq_true_eq]; omega⟩
  rw [hvm]
  simp only [Option.some_bind]
  set n1 := addMinutes n0 (vm - (n0.minute : Int)).toNat with hn1
  have hvd1 : n1.ValidDate := validDate_addMinutes hvd0 _
  have hlt1 : n1.hour < 24 := by
    rw [hn1, addMinutes_hour]; exact Nat.mod_lt _ (by norm_num)
  have hval1 : (0 : Int) ≤ c.hour.headD 0 := hh_lb _ (headD_mem hh_ne)
  obtain ⟨vh, hvh⟩ := first_isSome
    (p := fun x => decide ((n1.hour : Int) ≤ x)) (l := c.hour_e)
    ⟨24 + c.hour.headD 0,
      by rw [hh_e]; exact List.mem_append_right _ (by simp),
      by simp only [decide_eq_true_eq]; omega⟩
  rw [hvh]
  simp only [Option.some_bind]
  set n2 := addHours n1 (vh - (n1.hour : Int)).toNat with hn2
  have hvd2 : n2.ValidDate := validDate_addHours hvd1 _
  have hlt2 : n2.isoweekday % 7 < 7 := Nat.mod_lt _ (by norm_num)
  have hval2 : (0 : Int) ≤ c.dow.headD 0 := hw_lb _ (headD_mem hw_ne)
  obtain ⟨vdow, hvdow⟩ := first_isSome
    (p := fun x => decide (((n2.isoweekday % 7 : Nat) : Int) ≤ x))
    (l := c.dow_e)
    ⟨7 + c.dow.headD 0,
      by rw [hw_e]; exact List.mem_append_right _ (by simp),
      by simp only [decide_eq_true_eq]; omega⟩
  rw [hvdow]
  simp only [Option.some_bind]
  obtain ⟨d0, hd0eq⟩ : ∃ d0, c.dom.head? = some d0 := by
    cases hcd : c.dom with
    | nil => exact absurd hcd hd_ne
    | cons a l => exact ⟨a, rfl⟩
  rw [hd0eq]
  simp only [Option.some_bind]
  have hd0mem : d0 ∈ c.dom := List.mem_of_mem_head? (by rw [hd0eq]; rfl)
  have hd0ge : (1 : Int) ≤ d0 := hd_lb _ hd0mem
  have hday2 : n2.day ≤ monthLen n2.year n2.month := hvd2.2.2.2
  obtain ⟨vdom, hvdom⟩ := first_isSome
    (p := fun x => decide ((n2.day : Int) ≤ x))
    (l := c.dom.filter
        (fun x => decide (x ≤ (monthLen n2.year n2.month : Int)))
      ++ [(monthLen n2.year n2.month : Int) + d0])
    ⟨(monthLen n2.year n2.month : Int) + d0,
      List.mem_append_right _ (by simp),
      by simp only [decide_eq_true_eq]; omega⟩
  rw [hvdom]
  simp only [Option.some_bind]
  set n3 := addDays n2
    (if c.is_dow_restricted && c.is_dom_restricted then
        Nat.min (vdow - ((n2.isoweekday % 7 : Nat) : Int)).toNat
          (vdom - (n2.day : Int)).toNat
      else if c.is_dow_restricted then
        (vdow - ((n2.isoweekday % 7 : Nat) : Int)).toNat
      else (vdom - (n2.day : Int)).toNat) with hn3
  have hvd3 : n3.ValidDate := validDate_addDays hvd2 _
  have hval3 : (1 : Int) ≤ c.month.headD 0 := hmo_lb _ (headD_mem hmo_ne)
  have hmon3 : n3.month ≤ 12 := hvd3.2.1
  obtain ⟨vmon, hvmon⟩ := first_isSome
    (p := fun x => decide ((n3.month : Int) ≤ x)) (l := c.month_e)
    ⟨12 + c.month.headD 0,
      by rw [hmo_e]; exact List.mem_append_right _ (by simp),
      by simp only [decide_eq_true_eq]; omega⟩
  rw [hvmon]
  simp only [Option.some_bind]
  exact ⟨_, rfl⟩

theorem c3_witness :
    ∃ r, ((CronSpec.parse "0 0 1,15 * 1").getD emptySpec).next_valid_date
        ⟨2024, 1, 2, 3, 4, 5⟩ = some r :=
  c3_extended_sets_make_search_total
    ((CronSpec.parse "0 0 1,15 * 1").getD emptySpec)
    ⟨2024, 1, 2, 3, 4, 5⟩ (by decide) (by decide)

theorem c5_witness :
    ((CronSpec.parse "0 0 1,15 * 1").getD emptySpec).validate
        ⟨2024, 1, 8, 0, 0, 0⟩ = true ↔
      (((⟨2024, 1, 8, 0, 0, 0⟩ : DateTime).minute : Int) ∈
          ((CronSpec.parse "0 0 1,15 * 1").getD emptySpec).minute ∧
        (((⟨2024, 1, 8, 0, 0, 0⟩ : DateTime).hour : Int)) ∈
          ((CronSpec.parse "0 0 1,15 * 1").getD emptySpec).hour ∧
        (((⟨2024, 1, 8, 0, 0, 0⟩ : DateTime).month : Int)) ∈
          ((CronSpec.parse "0 0 1,15 * 1").getD emptySpec).month ∧
        (((⟨2024, 1, 8, 0, 0, 0⟩ : DateTime).day : Int) ∈
            ((CronSpec.parse "0 0 1,15 * 1").getD emptySpec).dom ∨
          ((⟨2024, 1, 8, 0, 0, 0⟩ : DateTime).isoweekday : Int) ∈
            ((CronSpec.parse "0 0 1,15 * 1").getD emptySpec).dow)) :=
  c5_validate_day_or_rule.1 ((CronSpec.parse "0 0 1,15 * 1").getD emptySpec)
    ⟨2024, 1, 8, 0, 0, 0⟩ (by decide) (by decide)

/-- C6 (counterexample).  `parse` does NOT require exactly 5 fields: a
6-field input is accepted, the extra field being silently ignored
(`fields[0]`..`fields[4]` are the only elements ever read). -/
theorem c6_counterexample_extra_fields_accepted :
    (pySplitWs (pyStrip "* * * * * garbage".data)).length = 6 ∧
    (CronSpec.parse "* * * * * garbage").isSome = true :=
  ⟨by decide, by decide⟩

/-- C6 (amended).  `parse` fails on an unrecognized `@`-alias, and a
non-alias input is accepted iff it has AT LEAST 5 whitespace-separated
fields whose first five expand successfully (with the `m`/`h`/`month`/
`dow` sets non-empty — construction indexes their first element); fields
past the fifth are ignored.  Failure yields no `CronSpec` at all. -/
theorem c6_parse_accepts_at_least_five_fields :
    (∀ s : String, (pyStrip s.data).head? = some '@' →
        namedSpec (pyStrip s.data) = none → CronSpec.parse s = none) ∧
    (∀ s : String, ¬ (pyStrip s.data).head? = some '@' →
      ((CronSpec.parse s).isSome ↔
        5 ≤ (pySplitWs (pyStrip s.data)).length ∧
        (∃ m, expand_valid ((pySplitWs (pyStrip s.data)).getD 0 []) 0 59 =
            some m ∧ m ≠ []) ∧
        (∃ hh, expand_valid ((pySplitWs (pyStrip s.data)).getD 1 []) 0 23 =
            some hh ∧ hh ≠ []) ∧
        (expand_valid ((pySplitWs (pyStrip s.data)).getD 2 []) 1 31).isSome ∧
        (∃ mo, expand_valid ((pySplitWs (pyStrip s.data)).getD 3 []) 1 12 =
            some mo ∧ mo ≠ []) ∧
        (∃ dw, expand_valid
            (replaceWeekdays
              (pyToLower ((pySplitWs (pyStrip s.data)).getD 4 []))) 0 7 =
            some dw ∧ dw ≠ []))) := by
  constructor
  · intro s h1 h2
    simp only [CronSpec.parse]
    split
    · rw [h2]
      rfl
    · rename_i hcond
      exact absurd h1 hcond
  · intro s hna
    constructor
    · intro hsome
      rw [Option.isSome_iff_exists] at hsome
      obtain ⟨cs, hcs⟩ := hsome
      simp only [CronSpec.parse] at hcs
      split at hcs
      · rename_i hcond
        exact absurd hcond hna
      · simp only [Option.bind_eq_bind, Option.some_bind] at hcs
        simp only [parseFields, Option.bind_eq_bind, Option.bind_eq_some]
          at hcs
        obtain ⟨f4, hf4, hcs⟩ := hcs
        obtain ⟨f0, hf0, hcs⟩ := hcs
        obtain ⟨f1, hf1, hcs⟩ := hcs
        obtain ⟨f2, hf2, hcs⟩ := hcs
        obtain ⟨f3, hf3, hcs⟩ := hcs
        obtain ⟨m, hm, hcs⟩ := hcs
        obtain ⟨hh, hhh, hcs⟩ := hcs
        obtain ⟨dm, hdm, hcs⟩ := hcs
        obtain ⟨mo, hmo, hcs⟩ := hcs
        obtain ⟨dw, hdw, hcs⟩ := hcs
        have hlen : 4 < (pySplitWs (pyStrip s.data)).length := by
          rcases List.getElem?_eq_some_iff.mp hf4 with ⟨hx, _⟩
          exact hx
        have hne := init_isSome_iff.mp (by rw [hcs]; rfl)
        have g0 : (pySplitWs (pyStrip s.data)).getD 0 [] = f0 := by
          rw [List.getD_eq_getElem?_getD, hf0]; rfl
        have g1 : (pySplitWs (pyStrip s.data)).getD 1 [] = f1 := by
          rw [List.getD_eq_getElem?_getD, hf1]; rfl
        have g2 : (pySplitWs (pyStrip s.data)).getD 2 [] = f2 := by
          rw [List.getD_eq_getElem?_getD, hf2]; rfl
        have g3 : (pySplitWs (pyStrip s.data)).getD 3 [] = f3 := by
          rw [List.getD_eq_getElem?_getD, hf3]; rfl
        have g4 : (pySplitWs (pyStrip s.data)).getD 4 [] = f4 := by
          rw [List.getD_eq_getElem?_getD, hf4]; rfl
        refine ⟨by omega, ⟨m, by rw [g0]; exact hm, hne.1⟩,
          ⟨hh, by rw [g1]; exact hhh, hne.2.1⟩,
          by rw [g2, hdm]; rfl,
          ⟨mo, by rw [g3]; exact hmo, hne.2.2.1⟩,
          ⟨dw, by rw [g4]; exact hdw, hne.2.2.2⟩⟩
    · rintro ⟨hlen, ⟨m, hm, hmne⟩, ⟨hh, hhh, hhne⟩, hdom,
        ⟨mo, hmo, hmone⟩, ⟨dw, hdw, hdwne⟩⟩
      obtain ⟨dm, hdm⟩ := Option.isSome_iff_exists.mp hdom
      have h0 : (pySplitWs (pyStrip s.data))[0]? =
          some ((pySplitWs (pyStrip s.data)).getD 0 []) :=
        getElem?_eq_getD (by omega)
      have h1 : (pySplitWs (pyStrip s.data))[1]? =
          some ((pySplitWs (pyStrip s.data)).getD 1 []) :=
        getElem?_eq_getD (by omega)
      have h2 : (pySplitWs (pyStrip s.data))[2]? =
          some ((pySplitWs (pyStrip s.data)).getD 2 []) :=
        getElem?_eq_getD (by omega)
      have h3 : (pySplitWs (pyStrip s.data))[3]? =
          some ((pySplitWs (pyStrip s.data)).getD 3 []) :=
        getElem?_eq_getD (by omega)
      have h4 : (pySplitWs (pyStrip s.data))[4]? =
          some ((pySplitWs (pyStrip s.data)).getD 4 []) :=
        getElem?_eq_getD (by omega)
      simp only [CronSpec.parse]
      split
      · rename_i hcond
        exact absurd hcond hna
      · simp only [Option.bind_eq_bind, Option.some_bind]
        simp only [parseFields, Option.bind_eq_bind]
        rw [h4]
        simp only [Option.some_bind]
        rw [h0]
        simp only [Option.some_bind]
        rw [h1]
        simp only [Option.some_bind]
        rw [h2]
        simp only [Option.some_bind]
        rw [h3]
        simp only [Option.some_bind]
        rw [hm]
        simp only [Option.some_bind]
        rw [hhh]
        simp only [Option.some_bind]
        rw [hdm]
        simp only [Option.some_bind]
        rw [hmo]
        simp only [Option.some_bind]
        rw [hdw]
        simp only [Option.some_bind]
        exact init_isSome_iff.mpr ⟨hmne, hhne, hmone, hdwne⟩

theorem c6_witness : CronSpec.parse "@nope" = none :=
  c6_parse_accepts_at_least_five_fields.1 "@nope" (by decide) (by decide)

/-- C7 (counterexample).  `expand_valid` never checks its values against
`[min, max]`: the field `"99"` with domain `[0, 59]` succeeds and returns
the out-of-range value 99 instead of failing. -/
theorem c7_counterexample_out_of_range_value_kept :
    expand_valid "99".data 0 59 = some [99] ∧ ¬ ((99 : Int) ≤ 59) :=
  ⟨by decide, by decide⟩

/-- C7 (amended).  `expand_valid` fails exactly when one of the
comma-separated sub-expressions is malformed (a non-numeric `start`,
`end` or `step` token, or a zero step); on success the result is the
sorted, duplicate-free union of the sub-expression ranges — with no range
check against `[min, max]`, whose only use is the `*` substitution. -/
theorem c7_expand_valid_failure_characterisation :
    (∀ (v : List Char) (mn mx : Int),
      (expand_valid v mn mx = none ↔
        ∃ iv ∈ splitOnChar ','
            (pyReplace v ['*'] (intToChars mn ++ '-' :: intToChars mx)),
          expandInterval iv = none)) ∧
    (∀ (v : List Char) (mn mx : Int) (l : List Int),
      expand_valid v mn mx = some l → l.Sorted (· < ·)) := by
  constructor
  · intro v mn mx
    rw [← mapO_eq_none_iff]
    simp only [expand_valid, Option.bind_eq_bind]
    cases hm : mapO expandInterval
        (splitOnChar ','
          (pyReplace v ['*'] (intToChars mn ++ '-' :: intToChars mx))) <;>
      simp [hm]
  · intro v mn mx l hl
    simp only [expand_valid, Option.bind_eq_bind, Option.bind_eq_some] at hl
    obtain ⟨lists, _, hl⟩ := hl
    injection hl with hl
    subst hl
    exact sortedDedup_sorted_lt _

theorem c7_witness : ([10, 13, 16, 19] : List Int).Sorted (· < ·) :=
  c7_expand_valid_failure_characterisation.2 "10-20/3".data 0 59
    [10, 13, 16, 19] (by decide)

/-- C9 (counterexample).  `is_dow_restricted` is NOT "the set does not
cover its full domain [0,7]": the parsed field `0-6` yields the set
`[0,…,6]`, which misses the domain value 7, yet the flag is `false`
(the code tests `len(dow) < 7`). -/
theorem c9_counterexample_dow_not_covering :
    ((CronSpec.parse "* * * * 0-6").getD emptySpec).is_dow_restricted =
      false ∧
    (7 : Int) ∈ Finset.Icc (0 : Int) 7 ∧
    (7 : Int) ∉ ((CronSpec.parse "* * * * 0-6").getD emptySpec).dow :=
  ⟨by decide, by decide, by decide⟩

/-- C9 (amended).  After any successful `setup` (hence after `parse`,
`replace` and `__init__`), `is_dom_restricted` is exactly the test
`len(dom) < 31` and `is_dow_restricted` exactly `len(dow) < 7` — length
tests, not domain-coverage tests.  For `dom` the two agree whenever the
set is duplicate-free and within `[1, 31]` (fewer than 31 values iff some
domain value is missing); for `dow` they differ, as the counterexample
shows. -/
theorem c9_restriction_flags_are_length_tests :
    (∀ (c c2 : CronSpec) (m h month dow : Option (List Int)) (l : List Int),
        c.setup m h (some l) month dow = some c2 →
        c2.is_dom_restricted = decide (l.length < 31)) ∧
    (∀ (c c2 : CronSpec) (m h dom month : Option (List Int)) (l : List Int),
        c.setup m h dom month (some l) = some c2 →
        c2.is_dow_restricted = decide (l.length < 7)) ∧
    (∀ l : List Int, l.Nodup → (∀ x ∈ l, x ∈ Finset.Icc (1 : Int) 31) →
        (l.length < 31 ↔ ∃ v ∈ Finset.Icc (1 : Int) 31, v ∉ l)) := by
  refine ⟨?_, ?_, ?_⟩
  · intro c c2 m h month dow l hs
    exact ((setup_fields hs).2.2.2.2.2.2.1 l rfl).2
  · intro c c2 m h dom month l hs
    exact ((setup_fields hs).2.2.2.2.2.2.2.2.2.2 l rfl).2.2
  · intro l hnd hsub
    have hcard : l.toFinset.card = l.length := List.toFinset_card_of_nodup hnd
    have hsubF : l.toFinset ⊆ Finset.Icc (1 : Int) 31 := fun x hx =>
      hsub x (List.mem_toFinset.mp hx)
    have hIcc : (Finset.Icc (1 : Int) 31).card = 31 := by
      rw [Int.card_Icc]; rfl
    constructor
    · intro hlen
      by_contra hc
      push_neg at hc
      have hsup : Finset.Icc (1 : Int) 31 ⊆ l.toFinset := fun v hv =>
        List.mem_toFinset.mpr (hc v hv)
      have := Finset.card_le_card hsup
      omega
    · rintro ⟨v, hv, hvl⟩
      by_contra hlen
      push_neg at hlen
      have heq : l.toFinset = Finset.Icc (1 : Int) 31 :=
        Finset.eq_of_subset_of_card_le hsubF (by omega)
      exact hvl (List.mem_toFinset.mp (heq ▸ hv))

theorem c9_witness :
    ((emptySpec.setup (some [0]) (some [0]) (some [1, 15]) (some [1])
        (some [1])).getD emptySpec).is_dom_restricted =
      decide (([1, 15] : List Int).length < 31) :=
  c9_restriction_flags_are_length_tests.1 emptySpec
    ((emptySpec.setup (some [0]) (some [0]) (some [1, 15]) (some [1])
        (some [1])).getD emptySpec)
    (some [0]) (some [0]) (some [1]) (some [1]) [1, 15] (by decide)

/-- C10 (confirmed).  `replace` deep-copies the receiver and re-runs
`setup` on the copy, so in this embedding it is a pure function — the
receiver keeps all of its fields.  In the returned spec every field whose
argument is `None` keeps the original's value (base set, extended set and
restriction flag alike), the stored source text is cleared, and the string
conversion is therefore the re-derived canonical form. -/
theorem c10_replace_returns_invalidated_copy (c c2 : CronSpec)
    (m h dom month dow : Option (List Int))
    (hr : c.replace m h dom month dow = some c2) :
    c2.parsed_from = none ∧
    pyStr c2 = (canonicalChars c2).map String.mk ∧
    (m = none → c2.minute = c.minute ∧ c2.minute_e = c.minute_e) ∧
    (h = none → c2.hour = c.hour ∧ c2.hour_e = c.hour_e) ∧
    (dom = none → c2.dom = c.dom ∧
      c2.is_dom_restricted = c.is_dom_restricted) ∧
    (month = none → c2.month = c.month ∧ c2.month_e = c.month_e) ∧
    (dow = none → c2.dow = c.dow ∧ c2.dow_e = c.dow_e ∧
      c2.is_dow_restricted = c.is_dow_restricted) := by
  obtain ⟨hpf, hmn, _, hhn, _, hdn, _, hmon, _, hwn, _⟩ := setup_fields hr
  exact ⟨hpf, by simp [pyStr, hpf], hmn, hhn, hdn, hmon, hwn⟩

def c10Base : CronSpec := (CronSpec.parse "0 0 1,15 * 1").getD emptySpec

def c10Replaced : CronSpec :=
  (c10Base.replace (some [5]) none none none none).getD emptySpec

theorem c10_witness :
    c10Replaced.parsed_from = none ∧
    pyStr c10Replaced = (canonicalChars c10Replaced).map String.mk ∧
    ((some [5] : Option (List Int)) = none →
      c10Replaced.minute = c10Base.minute ∧
      c10Replaced.minute_e = c10Base.minute_e) ∧
    ((none : Option (List Int)) = none →
      c10Replaced.hour = c10Base.hour ∧
      c10Replaced.hour_e = c10Base.hour_e) ∧
    ((none : Option (List Int)) = none →
      c10Replaced.dom = c10Base.dom ∧
      c10Replaced.is_dom_restricted = c10Base.is_dom_restricted) ∧
    ((none : Option (List Int)) = none →
      c10Replaced.month = c10Base.month ∧
      c10Replaced.month_e = c10Base.month_e) ∧
    ((none : Option (List Int)) = none →
      c10Replaced.dow = c10Base.dow ∧
      c10Replaced.dow_e = c10Base.dow_e ∧
      c10Replaced.is_dow_restricted = c10Base.is_dow_restricted) :=
  c10_replace_returns_invalidated_copy c10Base c10Replaced
    (some [5]) none none none none (by decide)

end Periodiq
